import Mathlib

/-!
Verification of the long-text translation pipeline of `src/translator.py`
(`BookTranslator.translate` and `BookTranslator.translate_long_text`).

The embedding is shallow: Python strings become `List Char`, the opaque
translation backend (`GoogleTranslator(...).translate`, one fresh instance
per attempt) becomes an oracle `Backend : Nat → List Char → BRes` mapping
the global call counter of the current top-level invocation and the input
text of the call to a success payload or a raised error message, and every
observable action (backend call, progress-callback invocation, `time.sleep`)
is recorded in an event trace `List Ev`.  All definitions are executable and
structurally recursive, so concrete runs evaluate by `decide` / `rfl`.
-/

namespace Translator

/-- ASCII whitespace, the `\s` class of `re.split(r'(?<=[.!?])\s+', text)`
restricted to the ASCII range (space, tab, newline, carriage return,
vertical tab, form feed). -/
def isSpc (c : Char) : Bool :=
  c = ' ' || c = '\t' || c = '\n' || c = '\r' || c.toNat = 11 || c.toNat = 12

/-- Terminal sentence punctuation, the `[.!?]` class of the split regex. -/
def isTerm (c : Char) : Bool :=
  c = '.' || c = '!' || c = '?'

/-- Whether a character list starts with a whitespace character. -/
def firstIsSpace : List Char → Bool
  | [] => false
  | c :: _ => isSpc c

/-- Embedding of `re.split(r'(?<=[.!?])\s+', text)` (translator.py line 90).
`acc` holds the reversed characters of the sentence being built; `skipping`
is true while the scanner is inside the whitespace run of a just-matched
sentence boundary.  A boundary is a terminal-punctuation character followed
by at least one whitespace character; the punctuation stays with the left
sentence and the whole whitespace run is consumed. -/
def splitAux : List Char → List Char → Bool → List (List Char)
  | [], acc, skipping => [if skipping then [] else acc.reverse]
  | c :: rest, acc, skipping =>
    if skipping && isSpc c then splitAux rest [] true
    else if isTerm c && firstIsSpace rest then ((c :: acc).reverse) :: splitAux rest [] true
    else splitAux rest (c :: acc) false

/-- The sentence list produced by the split regex on `text`. -/
def splitSentences (text : List Char) : List (List Char) :=
  splitAux text [] false

/-- Embedding of the greedy sentence-accumulation loop of
`translate_long_text` (translator.py lines 92-105).  `current` is
`current_chunk`; a flush emits `current` and restarts from the incoming
sentence; otherwise the sentence is appended, with a single joining space
when `current` is non-empty.  The final non-empty `current` is emitted. -/
def chunkRec (limit : Nat) : List (List Char) → List Char → List (List Char)
  | [], current => if current = [] then [] else [current]
  | s :: ss, current =>
    if current.length + s.length > limit ∧ current ≠ [] then
      current :: chunkRec limit ss s
    else
      chunkRec limit ss (if current = [] then s else current ++ ' ' :: s)

/-- The chunk list built by `translate_long_text` from the sentence list. -/
def buildChunks (limit : Nat) (sentences : List (List Char)) : List (List Char) :=
  chunkRec limit sentences []

/-- Embedding of `" ".join(parts)`. -/
def joinSpace : List (List Char) → List Char
  | [] => []
  | [s] => s
  | s :: rest => s ++ ' ' :: joinSpace rest

/-- Modelled from the spec: "whitespace normalization at sentence
boundaries".  `normAux` rewrites the text by replacing every sentence
boundary (terminal punctuation followed by a whitespace run) with the
punctuation followed by exactly one space, leaving all other characters,
including whitespace not at a sentence boundary, untouched.  It mirrors the
scanner structure of `splitAux`. -/
def normAux : List Char → Bool → List Char
  | [], _ => []
  | c :: rest, skipping =>
    if skipping && isSpc c then normAux rest true
    else if isTerm c && firstIsSpace rest then c :: ' ' :: normAux rest true
    else c :: normAux rest false

/-- The boundary-whitespace-normalized form of a text. -/
def norm (text : List Char) : List Char :=
  normAux text false

/-- Remove trailing whitespace.  Used to state the round-trip claim modulo
the trailing sentence boundary, whose whitespace run the chunker either
collapses to one space or drops entirely depending on the size limit. -/
def rstrip (l : List Char) : List Char :=
  (l.reverse.dropWhile isSpc).reverse

/-- Embedding of Python `str.strip()`: remove leading and trailing
whitespace. -/
def pyStrip (l : List Char) : List Char :=
  ((l.dropWhile isSpc).reverse.dropWhile isSpc).reverse

/-- Embedding of the guard `not text or len(text.strip()) == 0`
(translator.py line 43). -/
def blankInput (text : List Char) : Bool :=
  text.isEmpty || (pyStrip text).length = 0

/-- Outcome of one backend call: the translated payload, or the message of
the raised exception. -/
inductive BRes where
  | ok (t : List Char)
  | err (e : List Char)
deriving DecidableEq

/-- The opaque translation backend.  The first argument is the index of the
call within the current top-level invocation (a fresh `GoogleTranslator`
instance is constructed for every attempt, so successive attempts may
behave differently); the second is the text passed to the call. -/
def Backend : Type := Nat → List Char → BRes

/-- Observable events of one pipeline run: a backend call (with the unit
index `i` of the enclosing chunk loop, the global call index, the input
text and the outcome), a progress-callback invocation
`progress_callback(cur, tot)`, and a `time.sleep(secs)`. -/
inductive Ev where
  | call (unit : Nat) (idx : Nat) (input : List Char) (result : BRes)
  | cb (cur : Nat) (tot : Nat)
  | sleep (secs : Nat)
deriving DecidableEq

/-- `max_retries = 3` (translator.py line 115). -/
def max_retries : Nat := 3

/-- `retry_delay = 2` (translator.py line 116), the backoff base delay in
seconds. -/
def retry_delay : Nat := 2

/-- The inline failure marker
`f"[Translation failed for chunk {i+1}: {str(e)}]"` (translator.py
line 132); `n` is the already 1-based chunk number. -/
def failMarker (n : Nat) (msg : List Char) : List Char :=
  "[Translation failed for chunk ".toList ++ Nat.toDigits 10 n
    ++ ": ".toList ++ msg ++ "]".toList

/-- The detection phrase the spec names for marker scanning. -/
def markerPhrase : List Char := "Translation failed for chunk".toList

/-- The fast-path exception message `f"Translation error: {str(e)}"`
(translator.py line 55). -/
def translationErrorMsg (e : List Char) : List Char :=
  "Translation error: ".toList ++ e

/-- The sentinel `"No text to translate"` (translator.py line 44). -/
def sentinelNoText : List Char := "No text to translate".toList

/-- Default `chunk_size` (translator.py line 28). -/
def defaultChunkSize : Nat := 4500

/-- Embedding of the retry loop `for attempt in range(max_retries)`
(translator.py lines 118-132) for chunk number `i` (0-based) and input
`ch`.  `remaining` counts the attempts still allowed (initially
`max_retries`), `attemptIdx` is Python's 0-based `attempt`, `calls` the
global call counter.  On failure with retries left, the loop sleeps
`retry_delay * (attempt + 1)` and retries; on failure of the last attempt
it produces the inline failure marker and sleeps no backoff.  Returns the
event trace, the string appended to `translated_chunks`, and the new call
counter. -/
def retryAux (b : Backend) (i : Nat) (ch : List Char) :
    Nat → Nat → Nat → List Ev × List Char × Nat
  | 0, _, calls => ([], failMarker (i + 1) [], calls)
  | remaining + 1, attemptIdx, calls =>
    match b calls ch with
    | .ok t => ([Ev.call i calls ch (.ok t)], t, calls + 1)
    | .err e =>
      if remaining = 0 then
        ([Ev.call i calls ch (.err e)], failMarker (i + 1) e, calls + 1)
      else
        let r := retryAux b i ch remaining (attemptIdx + 1) (calls + 1)
        (Ev.call i calls ch (.err e) :: Ev.sleep (retry_delay * (attemptIdx + 1)) :: r.1,
          r.2.1, r.2.2)

/-- Embedding of `for i, chunk in enumerate(chunks)` (translator.py lines
110-135): per chunk, the optional callback fires first with
`(i + 1, len(chunks))`, then the retry loop runs, then `time.sleep(1)`
paces the next chunk.  Returns the event trace, the `translated_chunks`
list and the final call counter. -/
def chunkLoopT (b : Backend) (hasCb : Bool) :
    List (List Char) → Nat → Nat → Nat → List Ev × List (List Char) × Nat
  | [], _, _, calls => ([], [], calls)
  | ch :: rest, i, total, calls =>
    let cbTr : List Ev := if hasCb then [Ev.cb (i + 1) total] else []
    let r := retryAux b i ch max_retries 0 calls
    let rr := chunkLoopT b hasCb rest (i + 1) total r.2.2
    (cbTr ++ r.1 ++ Ev.sleep 1 :: rr.1, r.2.1 :: rr.2.1, rr.2.2)

/-- Embedding of `translate_long_text` (translator.py lines 72-140):
sentence split, greedy chunking, then the chunk loop; the result string is
`" ".join(translated_chunks)`.  `hasCb` records whether a
`progress_callback` was supplied. -/
def translate_long_text (b : Backend) (hasCb : Bool) (text : List Char)
    (chunk_size : Nat) : List Ev × List Char :=
  let chunks := buildChunks chunk_size (splitSentences text)
  let r := chunkLoopT b hasCb chunks 0 chunks.length 0
  (r.1, joinSpace r.2.1)

/-- Embedding of `BookTranslator.translate` (translator.py lines 28-55):
blank input short-circuits with the sentinel; short input makes one direct
backend call, whose exception is caught by the outer handler and rendered
as `"Translation error: ..."`; long input delegates to
`translate_long_text` (without a progress callback). -/
def translate (b : Backend) (text : List Char) (chunk_size : Nat) :
    List Ev × List Char :=
  if blankInput text then ([], sentinelNoText)
  else if text.length ≤ chunk_size then
    match b 0 text with
    | .ok t => ([Ev.call 0 0 text (.ok t)], t)
    | .err e => ([Ev.call 0 0 text (.err e)], translationErrorMsg e)
  else translate_long_text b false text chunk_size

/-- Projection: the `(cur, tot)` arguments of a callback event. -/
def cbArg : Ev → Option (Nat × Nat)
  | .cb a b => some (a, b)
  | _ => none

/-- Projection: the `cur` argument of a callback event. -/
def cbCur : Ev → Option Nat
  | .cb a _ => some a
  | _ => none

/-- Projection: the unit index of a backend-call event. -/
def callUnit : Ev → Option Nat
  | .call u _ _ _ => some u
  | _ => none

/-- Whether an event is a backend call. -/
def isCallEv : Ev → Bool
  | .call _ _ _ _ => true
  | _ => false

/-- Whether an event is a callback invocation. -/
def isCbEv : Ev → Bool
  | .cb _ _ => true
  | _ => false

/-- Temporal rank of an event in the per-unit schedule of the chunk loop:
the callback for unit `k` (carrying `cur = k + 1`) ranks `2 * (k + 1)`, the
backend calls of unit `k` rank `2 * k + 3`, sleeps are unranked. -/
def phaseOf : Ev → Option Nat
  | .cb a _ => some (2 * a)
  | .call u _ _ _ => some (2 * u + 3)
  | .sleep _ => none

/-- Python's substring test `pat in s`. -/
def containsSub (pat : List Char) : List Char → Bool
  | [] => pat.isEmpty
  | c :: rest => pat.isPrefixOf (c :: rest) || containsSub pat rest

/-- The payload carried by a backend outcome (the translated text on
success, the error message on failure). -/
def payloadOf : BRes → List Char
  | .ok t => t
  | .err e => e

/-- The per-chunk failure markers produced when every backend call fails:
chunk `k` of the list (0-based `i + k` overall) carries the error text of
its last attempt, which is global call `c0 + 3 * k + 2`. -/
def marksFrom (b : Backend) : Nat → Nat → List (List Char) → List (List Char)
  | _, _, [] => []
  | i, c0, c :: rest =>
    failMarker (i + 1) (payloadOf (b (c0 + 2) c)) :: marksFrom b (i + 1) (c0 + 3) rest

/-- The outcome list of the chunk loop under a backend whose result depends
only on the input text (`g`): a success payload where `g` succeeds, the
failure marker of the last attempt where `g` fails. -/
def pointwiseOut (g : List Char → BRes) : Nat → List (List Char) → List (List Char)
  | _, [] => []
  | i, c :: rest =>
    (match g c with
      | .ok t => t
      | .err e => failMarker (i + 1) e) :: pointwiseOut g (i + 1) rest

/-- A backend that succeeds on every call, echoing its input. -/
def okB : Backend := fun _ c => .ok c

/-- A backend that fails on every call with message `"x"`. -/
def allFailB : Backend := fun _ _ => .err "x".toList

/-- A backend that fails on the first call of the run and succeeds on every
later call. -/
def failOnceB : Backend := fun n c => if n = 0 then .err "x".toList else .ok c

/-- A backend that fails on every call with message `"boom"`. -/
def boomB : Backend := fun _ _ => .err "boom".toList

/-- A content-determined backend behavior that fails exactly on the chunk
`"Yo."` and echoes every other input. -/
def failYoG : List Char → BRes :=
  fun c => if c = "Yo.".toList then .err "boom".toList else .ok c

/-! ## Unfolding lemmas for the retry loop -/

lemma retryAux_zero (b : Backend) (i : Nat) (ch : List Char) (a c : Nat) :
    retryAux b i ch 0 a c = ([], failMarker (i + 1) [], c) := rfl

lemma retryAux_at3 (b : Backend) (i : Nat) (ch : List Char) (c : Nat) :
    retryAux b i ch 3 0 c =
      match b c ch with
      | .ok t => ([Ev.call i c ch (.ok t)], t, c + 1)
      | .err e => (Ev.call i c ch (.err e) :: Ev.sleep (retry_delay * 1) ::
            (retryAux b i ch 2 1 (c + 1)).1,
          (retryAux b i ch 2 1 (c + 1)).2.1, (retryAux b i ch 2 1 (c + 1)).2.2) := rfl

lemma retryAux_at2 (b : Backend) (i : Nat) (ch : List Char) (c : Nat) :
    retryAux b i ch 2 1 c =
      match b c ch with
      | .ok t => ([Ev.call i c ch (.ok t)], t, c + 1)
      | .err e => (Ev.call i c ch (.err e) :: Ev.sleep (retry_delay * 2) ::
            (retryAux b i ch 1 2 (c + 1)).1,
          (retryAux b i ch 1 2 (c + 1)).2.1, (retryAux b i ch 1 2 (c + 1)).2.2) := rfl

lemma retryAux_at1 (b : Backend) (i : Nat) (ch : List Char) (c : Nat) :
    retryAux b i ch 1 2 c =
      match b c ch with
      | .ok t => ([Ev.call i c ch (.ok t)], t, c + 1)
      | .err e => ([Ev.call i c ch (.err e)], failMarker (i + 1) e, c + 1) := rfl

/-- Closed form of one unit's full retry loop: up to three backend calls at
consecutive call indices; after a failed non-final attempt number `k`
(1-based) the loop sleeps `retry_delay * k`; after a failure of the final
attempt it emits the failure marker with the last error text and sleeps no
backoff. -/
lemma retryAux_eq (b : Backend) (i : Nat) (ch : List Char) (c0 : Nat) :
    retryAux b i ch max_retries 0 c0 =
      match b c0 ch with
      | .ok t => ([Ev.call i c0 ch (.ok t)], t, c0 + 1)
      | .err e1 =>
        match b (c0 + 1) ch with
        | .ok t => ([Ev.call i c0 ch (.err e1), Ev.sleep (retry_delay * 1),
            Ev.call i (c0 + 1) ch (.ok t)], t, c0 + 2)
        | .err e2 =>
          match b (c0 + 2) ch with
          | .ok t => ([Ev.call i c0 ch (.err e1), Ev.sleep (retry_delay * 1),
              Ev.call i (c0 + 1) ch (.err e2), Ev.sleep (retry_delay * 2),
              Ev.call i (c0 + 2) ch (.ok t)], t, c0 + 3)
          | .err e3 => ([Ev.call i c0 ch (.err e1), Ev.sleep (retry_delay * 1),
              Ev.call i (c0 + 1) ch (.err e2), Ev.sleep (retry_delay * 2),
              Ev.call i (c0 + 2) ch (.err e3)], failMarker (i + 1) e3, c0 + 3) := by
  show retryAux b i ch 3 0 c0 = _
  rw [retryAux_at3]
  cases h0 : b c0 ch with
  | ok t => rfl
  | err e1 =>
    rw [retryAux_at2]
    cases h1 : b (c0 + 1) ch with
    | ok t => rfl
    | err e2 =>
      rw [retryAux_at1]
      cases h2 : b (c0 + 2) ch with
      | ok t => rfl
      | err e3 => rfl

/-! ## The fast path of `translate` -/

/-- For non-blank input within the size limit, `translate` makes exactly one
backend call (call index 0) and returns its payload, or the
`"Translation error: ..."` rendering of its exception. -/
lemma fast_eq (b : Backend) (text : List Char) (l : Nat)
    (hb : blankInput text = false) (hl : text.length ≤ l) :
    translate b text l = ([Ev.call 0 0 text (b 0 text)],
      match b 0 text with
      | .ok t => t
      | .err e => translationErrorMsg e) := by
  simp only [translate, hb, Bool.false_eq_true, if_false, hl, if_true]
  cases h : b 0 text <;> rfl

/-! ## Substring scanning -/

lemma isPrefixOf_of_append_isPrefixOf :
    ∀ (P M e : List Char), P.length ≤ M.length →
      M.isPrefixOf (P ++ e) = true → P.isPrefixOf M = true
  | [], M, _, _, _ => by cases M <;> rfl
  | c :: P', [], _, hlen, _ => by simp at hlen
  | c :: P', m :: M', e, hlen, hpf => by
    simp only [List.cons_append, List.isPrefixOf, Bool.and_eq_true] at hpf ⊢
    have hmc : m = c := eq_of_beq hpf.1
    subst hmc
    exact ⟨beq_self_eq_true m, isPrefixOf_of_append_isPrefixOf P' M' e
      (Nat.succ_le_succ_iff.mp hlen) hpf.2⟩

/-- If no nonempty suffix of `P` is a prefix of `M` (so no occurrence of `M`
can start inside `P`), searching for `M` in `P ++ e` is the same as
searching in `e` alone. -/
lemma containsSub_append_eq :
    ∀ (P : List Char), P.length < M.length →
      (∀ k, k < P.length → ((P.drop k).isPrefixOf M) = false) →
      ∀ e, containsSub M (P ++ e) = containsSub M e := by
  intro P
  induction P with
  | nil => intro _ _ e; rfl
  | cons c P' ih =>
    intro hlen hk e
    have hfirst : M.isPrefixOf ((c :: P') ++ e) = false := by
      cases hpf : M.isPrefixOf ((c :: P') ++ e) with
      | false => rfl
      | true =>
        have := isPrefixOf_of_append_isPrefixOf (c :: P') M e (Nat.le_of_lt hlen) hpf
        have h0 := hk 0 (Nat.succ_pos _)
        simp only [List.drop_zero] at h0
        rw [h0] at this
        exact absurd this (by simp)
    show (M.isPrefixOf ((c :: P') ++ e) || containsSub M (P' ++ e)) = containsSub M e
    rw [hfirst, Bool.false_or]
    exact ih (Nat.lt_of_succ_lt hlen)
      (fun k hk' => by
        have := hk (k + 1) (Nat.succ_lt_succ hk')
        simpa using this) e

/-- The fast-path error shape cannot straddle an occurrence of the marker
detection phrase: scanning `"Translation error: " ++ e` for
`"Translation failed for chunk"` finds exactly the occurrences inside `e`. -/
lemma translationError_no_marker (e : List Char) :
    containsSub markerPhrase (translationErrorMsg e) =
      containsSub markerPhrase e := by
  exact containsSub_append_eq "Translation error: ".toList (by decide)
    (by decide) e

/-! ## Structure of the sentence split -/

lemma splitAux_ne_nil : ∀ (cs acc : List Char) (sk : Bool), splitAux cs acc sk ≠ []
  | [], acc, sk => by simp [splitAux]
  | c :: rest, acc, sk => by
    simp only [splitAux]
    split
    · exact splitAux_ne_nil rest [] true
    · split
      · simp
      · exact splitAux_ne_nil rest (c :: acc) false

lemma splitAux_dropLast_ne_nil :
    ∀ (cs acc : List Char) (sk : Bool), ∀ s ∈ (splitAux cs acc sk).dropLast, s ≠ []
  | [], acc, sk => by simp [splitAux]
  | c :: rest, acc, sk => by
    simp only [splitAux]
    split
    · exact splitAux_dropLast_ne_nil rest [] true
    · split
      · intro s hs
        rcases List.exists_cons_of_ne_nil (splitAux_ne_nil rest [] true) with ⟨x, xs, hx⟩
        rw [hx] at hs
        simp only [List.dropLast_cons₂] at hs
        rcases List.mem_cons.mp hs with h | h
        · subst h; simp
        · exact splitAux_dropLast_ne_nil rest [] true s (by rw [hx]; exact h)
      · exact splitAux_dropLast_ne_nil rest (c :: acc) false

lemma splitAux_first :
    ∀ (cs acc : List Char), cs ≠ [] →
      ∃ t r, splitAux cs acc false = (acc.reverse ++ t) :: r ∧ t ≠ []
  | [], _, h => absurd rfl h
  | c :: rest, acc, _ => by
    simp only [splitAux, Bool.false_and, Bool.false_eq_true, if_false]
    split
    · exact ⟨[c], splitAux rest [] true, by rw [List.reverse_cons], by simp⟩
    · cases hr : rest with
      | nil =>
        exact ⟨[c], [], by simp [splitAux, List.reverse_cons], by simp⟩
      | cons d ds =>
        rcases splitAux_first rest (c :: acc) (by rw [hr]; simp) with ⟨t, r, ht, htne⟩
        rw [← hr]
        exact ⟨c :: t, r, by rw [ht, List.reverse_cons, List.append_assoc]; rfl, by simp⟩

/-! ## Structure of the chunk builder -/

lemma chunkRec_ne_nil (limit : Nat) :
    ∀ (ss : List (List Char)) (current : List Char), current ≠ [] →
      chunkRec limit ss current ≠ []
  | [], current, hc => by simp [chunkRec, hc]
  | s :: ss, current, hc => by
    simp only [chunkRec, if_neg hc]
    split
    · simp
    · exact chunkRec_ne_nil limit ss (current ++ ' ' :: s) (by cases current <;> simp_all)

/-- Size invariant of the greedy chunk builder: every emitted chunk is
non-empty, and is either one of the incoming sentences (emitted whole) or of
length at most `limit + 1` — the joining space inserted between sentences is
not counted by the overflow test `len(current_chunk) + len(sentence) >
chunk_size`, so a merge may land exactly one character above the limit. -/
lemma chunkRec_inv (limit : Nat) (S : List (List Char)) :
    ∀ (ss : List (List Char)) (current : List Char),
      (∀ s ∈ ss, s ∈ S) →
      (current = [] ∨ current ∈ S ∨ current.length ≤ limit + 1) →
      ∀ c ∈ chunkRec limit ss current, c ≠ [] ∧ (c ∈ S ∨ c.length ≤ limit + 1)
  | [], current, _, hinv => by
    simp only [chunkRec]
    split
    · simp
    · intro c hcm
      rw [List.mem_singleton] at hcm
      subst hcm
      refine ⟨by assumption, ?_⟩
      rcases hinv with h | h | h
      · exact absurd h (by assumption)
      · exact Or.inl h
      · exact Or.inr h
  | s :: ss, current, hss, hinv => by
    simp only [chunkRec]
    split
    · next hcond =>
      intro c hcm
      rcases List.mem_cons.mp hcm with h | h
      · subst h
        refine ⟨hcond.2, ?_⟩
        rcases hinv with h | h | h
        · exact absurd h hcond.2
        · exact Or.inl h
        · exact Or.inr h
      · exact chunkRec_inv limit S ss s (fun t ht => hss t (List.mem_cons_of_mem s ht))
          (Or.inr (Or.inl (hss s (List.mem_cons_self s ss)))) c h
    · next hcond =>
      by_cases hc : current = []
      · rw [if_pos hc]
        exact chunkRec_inv limit S ss s (fun t ht => hss t (List.mem_cons_of_mem s ht))
          (Or.inr (Or.inl (hss s (List.mem_cons_self s ss))))
      · rw [if_neg hc]
        have hlen : current.length + s.length ≤ limit := by
          by_contra hgt
          exact hcond ⟨Nat.lt_of_not_le hgt, hc⟩
        exact chunkRec_inv limit S ss (current ++ ' ' :: s)
          (fun t ht => hss t (List.mem_cons_of_mem s ht))
          (Or.inr (Or.inr (by simp only [List.length_append, List.length_cons]; omega)))

/-! ## Joining and whitespace normalization -/

lemma joinSpace_cons_of_ne (s : List Char) (L : List (List Char)) (h : L ≠ []) :
    joinSpace (s :: L) = s ++ ' ' :: joinSpace L := by
  cases L with
  | nil => exact absurd rfl h
  | cons a as => rfl

lemma dropWhile_append_dropWhile (p : Char → Bool) :
    ∀ (x y : List Char),
      List.dropWhile p (x ++ y) = List.dropWhile p (List.dropWhile p x ++ y)
  | [], y => rfl
  | c :: x', y => by
    by_cases hc : p c
    · simp only [List.cons_append, List.dropWhile_cons, hc, if_true]
      exact dropWhile_append_dropWhile p x' y
    · simp [List.dropWhile_cons, hc]

lemma rstrip_append_rstrip (a z : List Char) :
    rstrip (a ++ z) = rstrip (a ++ rstrip z) := by
  unfold rstrip
  rw [List.reverse_append, List.reverse_append, List.reverse_reverse]
  exact congrArg List.reverse (dropWhile_append_dropWhile isSpc z.reverse a.reverse)

lemma rstrip_congr_append (a : List Char) {z1 z2 : List Char}
    (h : rstrip z1 = rstrip z2) : rstrip (a ++ z1) = rstrip (a ++ z2) := by
  rw [rstrip_append_rstrip, h, ← rstrip_append_rstrip]

lemma rstrip_append_space (a : List Char) : rstrip (a ++ [' ']) = rstrip a := by
  rw [rstrip_append_rstrip]
  rw [show rstrip [' '] = [] from rfl, List.append_nil]

/-- Joining the sentences of a text with single spaces is exactly the
boundary-whitespace normalization of the text. -/
lemma joinSpace_splitAux :
    ∀ (cs : List Char),
      (∀ acc : List Char,
        joinSpace (splitAux cs acc false) = acc.reverse ++ normAux cs false) ∧
      joinSpace (splitAux cs [] true) = normAux cs true := by
  intro cs
  induction cs with
  | nil =>
    refine ⟨fun acc => ?_, rfl⟩
    simp [splitAux, normAux, joinSpace]
  | cons c rest ih =>
    constructor
    · intro acc
      simp only [splitAux, normAux, Bool.false_and, Bool.false_eq_true, if_false]
      by_cases ht : (isTerm c && firstIsSpace rest) = true
      · rw [if_pos ht, if_pos ht,
          joinSpace_cons_of_ne _ _ (splitAux_ne_nil rest [] true), ih.2]
        simp [List.reverse_cons, List.append_assoc]
      · rw [if_neg ht, if_neg ht, ih.1 (c :: acc)]
        simp [List.reverse_cons, List.append_assoc]
    · simp only [splitAux, normAux]
      by_cases hs : isSpc c
      · simp only [Bool.true_and, hs, if_true]
        exact ih.2
      · simp only [Bool.true_and, hs, Bool.false_eq_true, if_false]
        by_cases ht : (isTerm c && firstIsSpace rest) = true
        · rw [if_pos ht, if_pos ht,
            joinSpace_cons_of_ne _ _ (splitAux_ne_nil rest [] true), ih.2]
          rfl
        · rw [if_neg ht, if_neg ht, ih.1 [c]]
          rfl

lemma joinSpace_split_eq_norm (text : List Char) :
    joinSpace (splitSentences text) = norm text := by
  have h := (joinSpace_splitAux text).1 []
  simpa [splitSentences, norm] using h

lemma dropLast_mem_cons (s : List Char) (ss : List (List Char)) :
    ∀ t ∈ ss.dropLast, t ∈ (s :: ss).dropLast := by
  cases ss with
  | nil => intro t ht; simp at ht
  | cons b bs =>
    intro t ht
    simp only [List.dropLast_cons₂]
    exact List.mem_cons_of_mem s ht

/-- The chunk loop neither loses nor duplicates sentence text: up to
trailing whitespace, the space-joined chunks coincide with the space-joined
incoming sentences.  (The trailing-whitespace allowance is needed because an
empty final sentence — produced by a trailing boundary-whitespace run — is
dropped by a flush but joined as a trailing space by a merge.) -/
lemma rstrip_joinSpace_chunkRec (limit : Nat) :
    ∀ (ss : List (List Char)) (current : List Char), current ≠ [] →
      (∀ s ∈ ss.dropLast, s ≠ []) →
      rstrip (joinSpace (chunkRec limit ss current)) =
        rstrip (joinSpace (current :: ss)) := by
  intro ss
  induction ss with
  | nil =>
    intro current hc _
    rw [show chunkRec limit [] current = [current] from by simp [chunkRec, hc]]
  | cons s ss' ih =>
    intro current hc hdrop
    simp only [chunkRec, if_neg hc]
    split
    · -- flush: emit `current`, restart from `s`
      by_cases hs : s = []
      · subst hs
        cases ss' with
        | nil =>
          rw [show chunkRec limit [] ([] : List Char) = [] from rfl]
          rw [show joinSpace [current] = current from rfl,
            show joinSpace [current, []] = current ++ [' '] from by rfl]
          exact (rstrip_append_space current).symm
        | cons b bs =>
          exact absurd (hdrop [] (by simp [List.dropLast_cons₂])) (by simp)
      · have hL := chunkRec_ne_nil limit ss' s hs
        rw [joinSpace_cons_of_ne current _ hL, joinSpace_cons_of_ne current (s :: ss') (by simp)]
        rw [List.append_cons current ' ' (joinSpace (chunkRec limit ss' s)),
          List.append_cons current ' ' (joinSpace (s :: ss'))]
        exact rstrip_congr_append (current ++ [' '])
          (ih s hs (fun t ht => hdrop t (dropLast_mem_cons s ss' t ht)))
    · -- merge: append `s` to `current` with a joining space
      have hnew : current ++ ' ' :: s ≠ [] := by cases current <;> simp_all
      rw [ih (current ++ ' ' :: s) hnew (fun t ht => hdrop t (dropLast_mem_cons s ss' t ht))]
      congr 1
      cases ss' with
      | nil => rfl
      | cons b bs =>
        rw [joinSpace_cons_of_ne _ (b :: bs) (by simp),
          joinSpace_cons_of_ne current (s :: b :: bs) (by simp),
          joinSpace_cons_of_ne s (b :: bs) (by simp)]
        simp [List.append_assoc]

/-! ## Unfolding lemmas for the chunk loop -/

lemma retryAux_step (b : Backend) (i : Nat) (ch : List Char) (r a c : Nat) :
    retryAux b i ch (r + 1) a c =
      match b c ch with
      | .ok t => ([Ev.call i c ch (.ok t)], t, c + 1)
      | .err e =>
        if r = 0 then ([Ev.call i c ch (.err e)], failMarker (i + 1) e, c + 1)
        else (Ev.call i c ch (.err e) :: Ev.sleep (retry_delay * (a + 1)) ::
            (retryAux b i ch r (a + 1) (c + 1)).1,
          (retryAux b i ch r (a + 1) (c + 1)).2.1,
          (retryAux b i ch r (a + 1) (c + 1)).2.2) := rfl

lemma chunkLoopT_nil (b : Backend) (hasCb : Bool) (i total calls : Nat) :
    chunkLoopT b hasCb [] i total calls = ([], [], calls) := rfl

lemma chunkLoopT_cons_true (b : Backend) (ch : List Char) (rest : List (List Char))
    (i total calls : Nat) :
    chunkLoopT b true (ch :: rest) i total calls =
      (Ev.cb (i + 1) total :: ((retryAux b i ch max_retries 0 calls).1 ++ Ev.sleep 1 ::
          (chunkLoopT b true rest (i + 1) total
            (retryAux b i ch max_retries 0 calls).2.2).1),
        (retryAux b i ch max_retries 0 calls).2.1 ::
          (chunkLoopT b true rest (i + 1) total
            (retryAux b i ch max_retries 0 calls).2.2).2.1,
        (chunkLoopT b true rest (i + 1) total
          (retryAux b i ch max_retries 0 calls).2.2).2.2) := rfl

lemma chunkLoopT_cons_false (b : Backend) (ch : List Char) (rest : List (List Char))
    (i total calls : Nat) :
    chunkLoopT b false (ch :: rest) i total calls =
      ((retryAux b i ch max_retries 0 calls).1 ++ Ev.sleep 1 ::
          (chunkLoopT b false rest (i + 1) total
            (retryAux b i ch max_retries 0 calls).2.2).1,
        (retryAux b i ch max_retries 0 calls).2.1 ::
          (chunkLoopT b false rest (i + 1) total
            (retryAux b i ch max_retries 0 calls).2.2).2.1,
        (chunkLoopT b false rest (i + 1) total
          (retryAux b i ch max_retries 0 calls).2.2).2.2) := rfl

lemma chunkLoopT_trace_nil (b : Backend) (hasCb : Bool) (i total calls : Nat) :
    (chunkLoopT b hasCb [] i total calls).1 = [] := by
  cases hasCb <;> rfl

lemma chunkLoopT_trace_cons_true (b : Backend) (ch : List Char) (rest : List (List Char))
    (i total calls : Nat) :
    (chunkLoopT b true (ch :: rest) i total calls).1 =
      Ev.cb (i + 1) total :: ((retryAux b i ch max_retries 0 calls).1 ++ Ev.sleep 1 ::
        (chunkLoopT b true rest (i + 1) total
          (retryAux b i ch max_retries 0 calls).2.2).1) := rfl

lemma chunkLoopT_trace_cons_false (b : Backend) (ch : List Char) (rest : List (List Char))
    (i total calls : Nat) :
    (chunkLoopT b false (ch :: rest) i total calls).1 =
      (retryAux b i ch max_retries 0 calls).1 ++ Ev.sleep 1 ::
        (chunkLoopT b false rest (i + 1) total
          (retryAux b i ch max_retries 0 calls).2.2).1 := rfl

lemma chunkLoopT_pays_cons (b : Backend) (hasCb : Bool) (ch : List Char)
    (rest : List (List Char)) (i total calls : Nat) :
    (chunkLoopT b hasCb (ch :: rest) i total calls).2.1 =
      (retryAux b i ch max_retries 0 calls).2.1 ::
        (chunkLoopT b hasCb rest (i + 1) total
          (retryAux b i ch max_retries 0 calls).2.2).2.1 := by
  cases hasCb <;> rfl

/-! ## All-failure runs (C6) -/

lemma retryAux_allfail (b : Backend) (hf : ∀ n c, ∃ e, b n c = .err e)
    (i : Nat) (ch : List Char) (c0 : Nat) :
    (retryAux b i ch max_retries 0 c0).2.1 =
        failMarker (i + 1) (payloadOf (b (c0 + 2) ch)) ∧
      (retryAux b i ch max_retries 0 c0).2.2 = c0 + 3 := by
  obtain ⟨e0, h0⟩ := hf c0 ch
  obtain ⟨e1, h1⟩ := hf (c0 + 1) ch
  obtain ⟨e2, h2⟩ := hf (c0 + 2) ch
  rw [retryAux_eq, h0, h1, h2]
  exact ⟨rfl, rfl⟩

lemma chunkLoopT_allfail (b : Backend) (hf : ∀ n c, ∃ e, b n c = .err e) (hasCb : Bool) :
    ∀ (chunks : List (List Char)) (i total c0 : Nat),
      (chunkLoopT b hasCb chunks i total c0).2.1 = marksFrom b i c0 chunks
  | [], i, total, c0 => by cases hasCb <;> rfl
  | ch :: rest, i, total, c0 => by
    rw [chunkLoopT_pays_cons, (retryAux_allfail b hf i ch c0).1,
      (retryAux_allfail b hf i ch c0).2,
      chunkLoopT_allfail b hf hasCb rest (i + 1) total (c0 + 3)]
    rfl

/-! ## Content-determined runs (C7) -/

lemma retryAux_pointwise_ok (g : List Char → BRes) (i : Nat) (ch : List Char)
    (c0 : Nat) (t : List Char) (h : g ch = .ok t) :
    retryAux (fun _ c => g c) i ch max_retries 0 c0 =
      ([Ev.call i c0 ch (.ok t)], t, c0 + 1) := by
  rw [retryAux_eq]
  simp [h]

lemma retryAux_pointwise_err (g : List Char → BRes) (i : Nat) (ch : List Char)
    (c0 : Nat) (e : List Char) (h : g ch = .err e) :
    retryAux (fun _ c => g c) i ch max_retries 0 c0 =
      ([Ev.call i c0 ch (.err e), Ev.sleep (retry_delay * 1),
        Ev.call i (c0 + 1) ch (.err e), Ev.sleep (retry_delay * 2),
        Ev.call i (c0 + 2) ch (.err e)], failMarker (i + 1) e, c0 + 3) := by
  rw [retryAux_eq]
  simp [h]

lemma chunkLoopT_pointwise (g : List Char → BRes) (hasCb : Bool) :
    ∀ (chunks : List (List Char)) (i total c0 : Nat),
      (chunkLoopT (fun _ c => g c) hasCb chunks i total c0).2.1 = pointwiseOut g i chunks
  | [], i, total, c0 => by cases hasCb <;> rfl
  | ch :: rest, i, total, c0 => by
    rw [chunkLoopT_pays_cons]
    cases hg : g ch with
    | ok t =>
      rw [retryAux_pointwise_ok g i ch c0 t hg,
        chunkLoopT_pointwise g hasCb rest (i + 1) total (c0 + 1)]
      simp [pointwiseOut, hg]
    | err e =>
      rw [retryAux_pointwise_err g i ch c0 e hg,
        chunkLoopT_pointwise g hasCb rest (i + 1) total (c0 + 3)]
      simp [pointwiseOut, hg]

lemma pointwiseOut_getD (g : List Char → BRes) :
    ∀ (l : List (List Char)) (i k : Nat), k < l.length →
      (pointwiseOut g i l).getD k [] =
        match g (l.getD k []) with
        | .ok t => t
        | .err e => failMarker (i + k + 1) e
  | [], _, k, hk => by simp at hk
  | c :: rest, i, 0, _ => rfl
  | c :: rest, i, k + 1, hk => by
    show (pointwiseOut g (i + 1) rest).getD k [] = _
    rw [pointwiseOut_getD g rest (i + 1) k (Nat.lt_of_succ_lt_succ hk)]
    simp only [show i + 1 + k + 1 = i + (k + 1) + 1 from by omega]
    rfl

/-! ## Trace structure (C1) -/

lemma cbCur_phase (e : Ev) (a : Nat) (h : cbCur e = some a) :
    phaseOf e = some (2 * a) := by
  cases e with
  | cb a' b' => simp only [cbCur, Option.some.injEq] at h; subst h; rfl
  | call _ _ _ _ => simp [cbCur] at h
  | sleep _ => simp [cbCur] at h

lemma callUnit_phase (e : Ev) (k : Nat) (h : callUnit e = some k) :
    phaseOf e = some (2 * k + 3) := by
  cases e with
  | call u _ _ _ => simp only [callUnit, Option.some.injEq] at h; subst h; rfl
  | cb _ _ => simp [callUnit] at h
  | sleep _ => simp [callUnit] at h

lemma retryAux_events (b : Backend) (i : Nat) (ch : List Char) :
    ∀ (r a c : Nat), ∀ e ∈ (retryAux b i ch r a c).1,
      cbArg e = none ∧ ∀ x, phaseOf e = some x → x = 2 * i + 3
  | 0, a, c => by simp [retryAux_zero]
  | r + 1, a, c => by
    intro e he
    rw [retryAux_step] at he
    cases hb0 : b c ch with
    | ok t =>
      rw [hb0] at he
      simp only [List.mem_singleton] at he
      subst he
      exact ⟨rfl, fun x hx => by simpa [phaseOf] using hx.symm⟩
    | err e1 =>
      rw [hb0] at he
      by_cases hr : r = 0
      · simp only [hr, if_pos, List.mem_singleton] at he
        subst he
        exact ⟨rfl, fun x hx => by simpa [phaseOf] using hx.symm⟩
      · simp only [if_neg hr, List.mem_cons] at he
        rcases he with h | h | h
        · subst h
          exact ⟨rfl, fun x hx => by simpa [phaseOf] using hx.symm⟩
        · subst h
          exact ⟨rfl, fun x hx => by simp [phaseOf] at hx⟩
        · exact retryAux_events b i ch r (a + 1) (c + 1) e h

lemma chunkLoopT_cbs (b : Backend) :
    ∀ (chunks : List (List Char)) (i total c0 : Nat),
      ((chunkLoopT b true chunks i total c0).1).filterMap cbArg =
        (List.range' (i + 1) chunks.length).map (fun a => (a, total))
  | [], i, total, c0 => rfl
  | ch :: rest, i, total, c0 => by
    rw [chunkLoopT_trace_cons_true]
    have h1 : List.filterMap cbArg (retryAux b i ch max_retries 0 c0).1 = [] :=
      List.filterMap_eq_nil_iff.mpr
        (fun e he => (retryAux_events b i ch max_retries 0 c0 e he).1)
    rw [List.filterMap_cons, List.filterMap_append, h1, List.filterMap_cons]
    rw [chunkLoopT_cbs b rest (i + 1) total ((retryAux b i ch max_retries 0 c0).2.2)]
    simp [cbArg, List.range']

lemma chunkLoopT_phase_lb (b : Backend) (hasCb : Bool) :
    ∀ (chunks : List (List Char)) (i total c0 : Nat),
      ∀ e ∈ (chunkLoopT b hasCb chunks i total c0).1,
        ∀ x, phaseOf e = some x → 2 * i + 2 ≤ x
  | [], i, total, c0 => by
    rw [chunkLoopT_trace_nil]
    simp
  | ch :: rest, i, total, c0 => by
    intro e he x hx
    have hstep : ∀ f, f ∈ (retryAux b i ch max_retries 0 c0).1 ∨ f = Ev.sleep 1 ∨
        f ∈ (chunkLoopT b hasCb rest (i + 1) total
          (retryAux b i ch max_retries 0 c0).2.2).1 ∨
        (hasCb = true ∧ f = Ev.cb (i + 1) total) →
        ∀ y, phaseOf f = some y → 2 * i + 2 ≤ y := by
      intro f hf y hy
      rcases hf with h | h | h | h
      · have := ((retryAux_events b i ch max_retries 0 c0 f h).2 y hy)
        omega
      · subst h; simp [phaseOf] at hy
      · have := chunkLoopT_phase_lb b hasCb rest (i + 1) total
          ((retryAux b i ch max_retries 0 c0).2.2) f h y hy
        omega
      · rw [h.2] at hy
        simp only [phaseOf, Option.some.injEq] at hy
        omega
    cases hasCb with
    | true =>
      rw [chunkLoopT_trace_cons_true] at he
      rcases List.mem_cons.mp he with h | h
      · exact hstep e (Or.inr (Or.inr (Or.inr ⟨rfl, h⟩))) x hx
      · rcases List.mem_append.mp h with h2 | h2
        · exact hstep e (Or.inl h2) x hx
        · rcases List.mem_cons.mp h2 with h3 | h3
          · exact hstep e (Or.inr (Or.inl h3)) x hx
          · exact hstep e (Or.inr (Or.inr (Or.inl h3))) x hx
    | false =>
      rw [chunkLoopT_trace_cons_false] at he
      rcases List.mem_append.mp he with h2 | h2
      · exact hstep e (Or.inl h2) x hx
      · rcases List.mem_cons.mp h2 with h3 | h3
        · exact hstep e (Or.inr (Or.inl h3)) x hx
        · exact hstep e (Or.inr (Or.inr (Or.inl h3))) x hx

lemma chunkLoopT_pairwise (b : Backend) (hasCb : Bool) :
    ∀ (chunks : List (List Char)) (i total c0 : Nat),
      ((chunkLoopT b hasCb chunks i total c0).1).Pairwise
        (fun e f => ∀ x, phaseOf e = some x → ∀ y, phaseOf f = some y → x ≤ y)
  | [], i, total, c0 => by
    rw [chunkLoopT_trace_nil]
    exact List.Pairwise.nil
  | ch :: rest, i, total, c0 => by
    have hretry : ((retryAux b i ch max_retries 0 c0).1).Pairwise
        (fun e f => ∀ x, phaseOf e = some x → ∀ y, phaseOf f = some y → x ≤ y) := by
      apply List.pairwise_of_forall_mem_list
      intro e he f hf x hx y hy
      rw [(retryAux_events b i ch max_retries 0 c0 e he).2 x hx,
        (retryAux_events b i ch max_retries 0 c0 f hf).2 y hy]
    have hrest := chunkLoopT_pairwise b hasCb rest (i + 1) total
      ((retryAux b i ch max_retries 0 c0).2.2)
    have hsleeprest : (Ev.sleep 1 :: (chunkLoopT b hasCb rest (i + 1) total
        (retryAux b i ch max_retries 0 c0).2.2).1).Pairwise
        (fun e f => ∀ x, phaseOf e = some x → ∀ y, phaseOf f = some y → x ≤ y) :=
      List.Pairwise.cons (fun f _ x hx => by simp [phaseOf] at hx) hrest
    have happ : ((retryAux b i ch max_retries 0 c0).1 ++ Ev.sleep 1 ::
        (chunkLoopT b hasCb rest (i + 1) total
          (retryAux b i ch max_retries 0 c0).2.2).1).Pairwise
        (fun e f => ∀ x, phaseOf e = some x → ∀ y, phaseOf f = some y → x ≤ y) := by
      rw [List.pairwise_append]
      refine ⟨hretry, hsleeprest, ?_⟩
      intro e he f hf x hx y hy
      rw [(retryAux_events b i ch max_retries 0 c0 e he).2 x hx]
      rcases List.mem_cons.mp hf with h | h
      · subst h; simp [phaseOf] at hy
      · have := chunkLoopT_phase_lb b hasCb rest (i + 1) total
          ((retryAux b i ch max_retries 0 c0).2.2) f h y hy
        omega
    cases hasCb with
    | true =>
      rw [chunkLoopT_trace_cons_true]
      refine List.Pairwise.cons ?_ happ
      intro f hf x hx y hy
      simp only [phaseOf, Option.some.injEq] at hx
      rcases List.mem_append.mp hf with h2 | h2
      · rw [(retryAux_events b i ch max_retries 0 c0 f h2).2 y hy]
        omega
      · rcases List.mem_cons.mp h2 with h3 | h3
        · subst h3; simp [phaseOf] at hy
        · have := chunkLoopT_phase_lb b true rest (i + 1) total
            ((retryAux b i ch max_retries 0 c0).2.2) f h3 y hy
          omega
    | false =>
      rw [chunkLoopT_trace_cons_false]
      exact happ

/-- In a trace that is phase-sorted, an event of strictly smaller phase
sits at a strictly smaller position. -/
lemma getD_lt_of_phase (tr : List Ev)
    (hpw : tr.Pairwise
      (fun e f => ∀ x, phaseOf e = some x → ∀ y, phaseOf f = some y → x ≤ y))
    (u v : Nat) (xu xv : Nat)
    (hu : phaseOf (tr.getD u (Ev.sleep 0)) = some xu)
    (hv : phaseOf (tr.getD v (Ev.sleep 0)) = some xv)
    (hlt : xv < xu) : v < u := by
  have hul : u < tr.length := by
    by_contra h
    rw [List.getD_eq_default _ _ (Nat.le_of_not_lt h)] at hu
    simp [phaseOf] at hu
  have hvl : v < tr.length := by
    by_contra h
    rw [List.getD_eq_default _ _ (Nat.le_of_not_lt h)] at hv
    simp [phaseOf] at hv
  by_contra hle
  have huv : u ≤ v := Nat.le_of_not_lt hle
  rw [List.getD_eq_getElem tr _ hul] at hu
  rw [List.getD_eq_getElem tr _ hvl] at hv
  rcases Nat.lt_or_eq_of_le huv with hlt2 | heq
  · have := (List.pairwise_iff_getElem.mp hpw) u v hul hvl hlt2 xu hu xv hv
    omega
  · subst heq
    rw [hu] at hv
    simp only [Option.some.injEq] at hv
    omega

/-! ## Claim theorems -/

/-- C1, counterexample: the claim asserts that each progress-callback
invocation occurs after its unit's outcome is finalized (hence after all of
that unit's backend calls).  On the concrete run `translate_long_text` over
one unit `"Hi."` with an always-succeeding backend, the trace is
`[cb (1,1), call, sleep 1]`: the callback sits at position 0 and the unit's
only backend call at position 1, so no backend call of unit 0 precedes the
callback `(1,1)` and the claimed ordering is violated. -/
theorem c1_counterexample :
    ¬ ((translate_long_text okB true "Hi.".toList 10).1.filterMap cbArg = [(1, 1)] ∧
      ∀ p q k,
        callUnit ((translate_long_text okB true "Hi.".toList 10).1.getD p (Ev.sleep 0)) =
          some k →
        cbCur ((translate_long_text okB true "Hi.".toList 10).1.getD q (Ev.sleep 0)) =
          some (k + 1) →
        p < q) := by
  intro h
  have := h.2 1 0 0 (by decide) (by decide)
  omega

/-- C1 (amended): with a progress callback supplied, `translate_long_text`
over `N` units invokes the callback exactly `N` times with arguments
`(1, N), ..., (N, N)` strictly in unit order; but each invocation occurs
immediately BEFORE that unit's processing begins — before every backend
call of its unit and after every backend call of the preceding unit — not
after the unit's outcome is finalized. -/
theorem c1_amended_callback_schedule (b : Backend) (text : List Char) (l : Nat) :
    ((translate_long_text b true text l).1.filterMap cbArg =
      (List.range' 1 (buildChunks l (splitSentences text)).length).map
        (fun a => (a, (buildChunks l (splitSentences text)).length))) ∧
    (∀ p q k,
      cbCur ((translate_long_text b true text l).1.getD p (Ev.sleep 0)) = some (k + 1) →
      callUnit ((translate_long_text b true text l).1.getD q (Ev.sleep 0)) = some k →
      p < q) ∧
    (∀ p q k,
      callUnit ((translate_long_text b true text l).1.getD p (Ev.sleep 0)) = some k →
      cbCur ((translate_long_text b true text l).1.getD q (Ev.sleep 0)) = some (k + 2) →
      p < q) := by
  refine ⟨?_, ?_, ?_⟩
  · exact chunkLoopT_cbs b (buildChunks l (splitSentences text)) 0
      (buildChunks l (splitSentences text)).length 0
  · intro p q k h1 h2
    exact getD_lt_of_phase (translate_long_text b true text l).1
      (chunkLoopT_pairwise b true (buildChunks l (splitSentences text)) 0
        (buildChunks l (splitSentences text)).length 0)
      q p (2 * k + 3) (2 * (k + 1))
      (callUnit_phase _ k h2) (cbCur_phase _ (k + 1) h1) (by omega)
  · intro p q k h1 h2
    exact getD_lt_of_phase (translate_long_text b true text l).1
      (chunkLoopT_pairwise b true (buildChunks l (splitSentences text)) 0
        (buildChunks l (splitSentences text)).length 0)
      q p (2 * (k + 2)) (2 * k + 3)
      (cbCur_phase _ (k + 2) h2) (callUnit_phase _ k h1) (by omega)

/-- C1, witness: on the two-unit run `"Hi. Yo."` with limit 3, the callback
fires as `(1,2)` then `(2,2)`, the callback `(1,2)` (position 0) precedes
unit 0's backend call (position 1), which precedes the callback `(2,2)`
(position 3). -/
theorem c1_witness :
    ((translate_long_text okB true "Hi. Yo.".toList 3).1.filterMap cbArg =
      (List.range' 1 2).map (fun a => (a, 2))) ∧ (0 : Nat) < 1 ∧ (1 : Nat) < 3 := by
  have h := c1_amended_callback_schedule okB "Hi. Yo.".toList 3
  exact ⟨h.1, h.2.1 0 1 0 (by decide) (by decide), h.2.2 1 3 0 (by decide) (by decide)⟩

/-- C2, counterexample: the claim predicts that the delay before attempt 2
is `backoff_base_delay * 2`.  On a unit whose first attempt fails and whose
second succeeds, the recorded backoff sleep is `retry_delay * 1` (2 seconds),
not `retry_delay * 2` (4 seconds). -/
theorem c2_counterexample :
    (retryAux failOnceB 0 "a.".toList max_retries 0 0).1 =
      [Ev.call 0 0 "a.".toList (.err "x".toList), Ev.sleep (retry_delay * 1),
        Ev.call 0 1 "a.".toList (.ok "a.".toList)] ∧
    retry_delay * 1 ≠ retry_delay * 2 := by decide

/-- C2 (amended): full schedule of one unit's retry loop.  When backend
attempt `k` (1-based) fails with `k < max_retries`, the loop sleeps
`backoff_base_delay * k` — the multiplier is the number of the just-failed
attempt, not of the upcoming one: `1×base` before attempt 2 and `2×base`
before attempt 3 — and no backoff is slept after the final failed attempt,
whose error text goes into the failure marker. -/
theorem c2_amended_backoff_schedule (b : Backend) (i : Nat) (ch : List Char) (c0 : Nat) :
    retryAux b i ch max_retries 0 c0 =
      match b c0 ch with
      | .ok t => ([Ev.call i c0 ch (.ok t)], t, c0 + 1)
      | .err e1 =>
        match b (c0 + 1) ch with
        | .ok t => ([Ev.call i c0 ch (.err e1), Ev.sleep (retry_delay * 1),
            Ev.call i (c0 + 1) ch (.ok t)], t, c0 + 2)
        | .err e2 =>
          match b (c0 + 2) ch with
          | .ok t => ([Ev.call i c0 ch (.err e1), Ev.sleep (retry_delay * 1),
              Ev.call i (c0 + 1) ch (.err e2), Ev.sleep (retry_delay * 2),
              Ev.call i (c0 + 2) ch (.ok t)], t, c0 + 3)
          | .err e3 => ([Ev.call i c0 ch (.err e1), Ev.sleep (retry_delay * 1),
              Ev.call i (c0 + 1) ch (.err e2), Ev.sleep (retry_delay * 2),
              Ev.call i (c0 + 2) ch (.err e3)], failMarker (i + 1) e3, c0 + 3) :=
  retryAux_eq b i ch c0

/-- C3, counterexample: the claim asserts the short-text fast path is
wrapped in the same bounded-retry policy (up to `max_retries` attempts,
returning the payload or the failure marker).  With a persistently failing
backend and the short non-blank text `"hi."`, `translate` performs exactly
one backend call — not `max_retries` — and returns
`"Translation error: boom"`, which is not the failure-marker shape. -/
theorem c3_counterexample :
    (translate boomB "hi.".toList 10).1.countP isCallEv = 1 ∧
    ¬ (translate boomB "hi.".toList 10).1.countP isCallEv = max_retries ∧
    (translate boomB "hi.".toList 10).2 = translationErrorMsg "boom".toList ∧
    ¬ (translate boomB "hi.".toList 10).2 = failMarker 1 "boom".toList := by
  refine ⟨by decide, by decide, by decide, by decide⟩

/-- C3 (amended): for every non-blank text with `len(text) ≤ chunk_size`,
`translate` bypasses chunking and issues a single direct backend call with
NO retry wrapper: the trace is exactly one call event, and the result is
that call's payload on success or `"Translation error: {message}"` (not a
failure marker) on failure. -/
theorem c3_amended_fast_path_no_retry (b : Backend) (text : List Char) (l : Nat)
    (hb : blankInput text = false) (hl : text.length ≤ l) :
    (translate b text l).1 = [Ev.call 0 0 text (b 0 text)] ∧
    (∀ t, b 0 text = .ok t → (translate b text l).2 = t) ∧
    (∀ e, b 0 text = .err e → (translate b text l).2 = translationErrorMsg e) := by
  rw [fast_eq b text l hb hl]
  refine ⟨rfl, ?_, ?_⟩
  · intro t h
    simp [h]
  · intro e h
    simp [h]

/-- C3, witness: instance of the amended fast-path contract on the failing
backend `boomB` and the succeeding backend via the error branch. -/
theorem c3_witness :
    blankInput "hi.".toList = false ∧ ("hi.".toList).length ≤ 10 ∧
    (translate boomB "hi.".toList 10).1 =
      [Ev.call 0 0 "hi.".toList (.err "boom".toList)] :=
  ⟨by decide, by decide, by
    have h := c3_amended_fast_path_no_retry boomB "hi.".toList 10 (by decide) (by decide)
    exact h.1⟩

/-- C4, counterexample: the claim allows a unit to exceed the limit only
when it is a single oversized sentence.  For `text = "a. b."` (length 5)
and `unitLimit = 4`, the chunker emits the single unit `"a. b."` of length
5 > 4, which is not one of the sentences (`"a."`, `"b."`): the joining
space is not counted by the overflow check, so two 2-character sentences
merge into a 5-character unit. -/
theorem c4_counterexample :
    4 < ("a. b.".toList).length ∧
    buildChunks 4 (splitSentences "a. b.".toList) = ["a. b.".toList] ∧
    ("a. b.".toList).length = 5 ∧
    ¬ "a. b.".toList ∈ splitSentences "a. b.".toList := by
  refine ⟨by decide, by decide, by decide, by decide⟩

/-- C4 (amended): for every chunking of a text with `len(text) > unitLimit`,
every produced unit is non-empty, and every unit either is a single
sentence emitted whole (which may exceed the limit) or has length at most
`unitLimit + 1` — one more than the limit, because the joining space
inserted between accumulated sentences is not counted by the overflow
check. -/
theorem c4_amended_chunk_bounds (text : List Char) (limit : Nat)
    (h : limit < text.length) :
    ∀ c ∈ buildChunks limit (splitSentences text),
      c ≠ [] ∧ (c ∈ splitSentences text ∨ c.length ≤ limit + 1) :=
  chunkRec_inv limit (splitSentences text) (splitSentences text) []
    (fun _ hs => hs) (Or.inl rfl)

/-- C4, witness: on `"a. b. c."` with limit 4 the chunker emits
`["a. b.", "c."]`; the unit `"a. b."` is non-empty and within the amended
bound `4 + 1`. -/
theorem c4_witness :
    4 < ("a. b. c.".toList).length ∧
    ("a. b.".toList ≠ [] ∧
      ("a. b.".toList ∈ splitSentences "a. b. c.".toList ∨
        ("a. b.".toList).length ≤ 4 + 1)) :=
  ⟨by decide, c4_amended_chunk_bounds "a. b. c.".toList 4 (by decide) "a. b.".toList
    (by decide)⟩

/-- C5, counterexample: the claim names the sentinel `"no text to
translate"`; the code returns `"No text to translate"` (capital `N`).  On
empty input the returned string is the capitalized sentinel and differs
from the claimed one. -/
theorem c5_counterexample :
    (translate okB [] 5).2 = "No text to translate".toList ∧
    ¬ (translate okB [] 5).2 = "no text to translate".toList ∧
    (translate okB [] 5).1 = [] := by
  refine ⟨by decide, by decide, by decide⟩

/-- C5 (amended): for every blank or empty input, `translate` returns the
fixed sentinel `"No text to translate"` (capital `N`) with zero backend
calls and zero progress-callback invocations. -/
theorem c5_amended_blank_sentinel (b : Backend) (text : List Char) (l : Nat)
    (hb : blankInput text = true) :
    translate b text l = ([], sentinelNoText) ∧
    (translate b text l).1.countP isCallEv = 0 ∧
    (translate b text l).1.countP isCbEv = 0 := by
  have h : translate b text l = ([], sentinelNoText) := by
    simp [translate, hb]
  exact ⟨h, by rw [h]; rfl, by rw [h]; rfl⟩

/-- C5, witness: instance on the whitespace-only input `"   "`. -/
theorem c5_witness :
    blankInput "   ".toList = true ∧
    translate okB "   ".toList 5 = ([], sentinelNoText) :=
  ⟨by decide, (c5_amended_blank_sentinel okB "   ".toList 5 (by decide)).1⟩

/-- C6 (confirmed): `translate` is a total function into strings — no
backend failure pattern escapes as an exception, because every attempt's
error is consumed by the retry loop — and when every backend call fails,
the long-path result is exactly the space-join of the per-unit failure
markers, each carrying its unit's 1-based number and the error text of that
unit's last (third) attempt, at global call index `3*k + 2`. -/
theorem c6_all_failures_markers (b : Backend) (text : List Char) (l : Nat)
    (hb : blankInput text = false) (hl : l < text.length)
    (hf : ∀ n c, ∃ e, b n c = .err e) :
    (translate b text l).2 =
      joinSpace (marksFrom b 0 0 (buildChunks l (splitSentences text))) := by
  have hnot : ¬ text.length ≤ l := Nat.not_le.mpr hl
  simp only [translate, hb, Bool.false_eq_true, if_false]
  rw [if_neg hnot]
  exact congrArg joinSpace
    (chunkLoopT_allfail b hf false (buildChunks l (splitSentences text)) 0
      (buildChunks l (splitSentences text)).length 0)

/-- C6, witness: on `"Hi. Yo."` with limit 3 and the always-failing backend,
the result is the two failure markers joined by a space. -/
theorem c6_witness :
    blankInput "Hi. Yo.".toList = false ∧ 3 < ("Hi. Yo.".toList).length ∧
    (translate allFailB "Hi. Yo.".toList 3).2 =
      joinSpace (marksFrom allFailB 0 0 (buildChunks 3 (splitSentences "Hi. Yo.".toList))) :=
  ⟨by decide, by decide, c6_all_failures_markers allFailB "Hi. Yo.".toList 3
    (by decide) (by decide) (fun _ _ => ⟨"x".toList, rfl⟩)⟩

/-- C7 (confirmed): in a multi-unit job whose backend behavior depends only
on the unit text, failing permanently exactly on unit `j` and succeeding on
every other unit, the joined result is the space-join of the per-unit
outcome list; position `j` of that list is the inline marker
`"[Translation failed for chunk {j+1}: {message}]"` carrying the last
attempt's error text, and every other position holds its unit's translated
payload. -/
theorem c7_single_failure_position (text : List Char) (l : Nat)
    (g : List Char → BRes) (j : Nat) (e : List Char)
    (hmulti : 2 ≤ (buildChunks l (splitSentences text)).length)
    (hj : j < (buildChunks l (splitSentences text)).length)
    (hfail : g ((buildChunks l (splitSentences text)).getD j []) = .err e)
    (hsucc : ∀ i, i < (buildChunks l (splitSentences text)).length → i ≠ j →
      ∃ t, g ((buildChunks l (splitSentences text)).getD i []) = .ok t) :
    (translate_long_text (fun _ c => g c) false text l).2 =
      joinSpace (pointwiseOut g 0 (buildChunks l (splitSentences text))) ∧
    (pointwiseOut g 0 (buildChunks l (splitSentences text))).getD j [] =
      failMarker (j + 1) e ∧
    (∀ i, i < (buildChunks l (splitSentences text)).length → i ≠ j →
      (pointwiseOut g 0 (buildChunks l (splitSentences text))).getD i [] =
        payloadOf (g ((buildChunks l (splitSentences text)).getD i []))) := by
  refine ⟨?_, ?_, ?_⟩
  · exact congrArg joinSpace
      (chunkLoopT_pointwise g false (buildChunks l (splitSentences text)) 0
        (buildChunks l (splitSentences text)).length 0)
  · have h2 := pointwiseOut_getD g (buildChunks l (splitSentences text)) 0 j hj
    rw [hfail] at h2
    simpa using h2
  · intro i hi hne
    obtain ⟨t, ht⟩ := hsucc i hi hne
    have h3 := pointwiseOut_getD g (buildChunks l (splitSentences text)) 0 i hi
    rw [ht] at h3
    rw [ht]
    simpa [payloadOf] using h3

/-- C7, witness: on the two-unit job `"Hi. Yo."` with limit 3 and a
backend failing exactly on `"Yo."`, position 1 of the outcome list is the
marker for chunk 2 with message `"boom"`. -/
theorem c7_witness :
    2 ≤ (buildChunks 3 (splitSentences "Hi. Yo.".toList)).length ∧
    (pointwiseOut failYoG 0 (buildChunks 3 (splitSentences "Hi. Yo.".toList))).getD 1 [] =
      failMarker 2 "boom".toList :=
  ⟨by decide,
    (c7_single_failure_position "Hi. Yo.".toList 3 failYoG 1 "boom".toList
      (by decide) (by decide) (by decide)
      (fun i hi hne => by
        have hi2 : i < 2 := by
          rw [show (buildChunks 3 (splitSentences "Hi. Yo.".toList)).length = 2
            from by decide] at hi
          exact hi
        interval_cases i
        · exact ⟨"Hi.".toList, by decide⟩
        · exact absurd rfl hne)).2.1⟩

/-- C8 (confirmed): for every text longer than the limit, joining the
chunker's units with single spaces reproduces the text up to whitespace
normalization at sentence boundaries: it equals `norm text` (every
boundary whitespace run collapsed to one space) up to the trailing
whitespace run, which the chunker may drop instead of collapsing; and the
chunking is a pure function of `(text, unitLimit)`, hence identical across
repeated runs. -/
theorem c8_round_trip (text : List Char) (limit : Nat) (h : limit < text.length) :
    rstrip (joinSpace (buildChunks limit (splitSentences text))) = rstrip (norm text) ∧
    ∀ (text2 : List Char) (limit2 : Nat), text2 = text → limit2 = limit →
      buildChunks limit2 (splitSentences text2) = buildChunks limit (splitSentences text) := by
  constructor
  · have htxt : text ≠ [] := by
      intro he
      rw [he] at h
      simp at h
    rcases splitAux_first text [] htxt with ⟨t, r, ht, htne⟩
    have hsplit : splitSentences text = t :: r := by
      rw [splitSentences, ht]
      simp
    have hbuild : buildChunks limit (t :: r) = chunkRec limit r t := by
      simp [buildChunks, chunkRec]
    rw [hsplit, hbuild,
      rstrip_joinSpace_chunkRec limit r t htne
        (fun s hs => splitAux_dropLast_ne_nil text [] false s
          (by rw [show splitAux text [] false = t :: r from hsplit]
              exact dropLast_mem_cons t r s hs))]
    rw [← joinSpace_split_eq_norm, hsplit]
  · intro text2 limit2 h1 h2
    rw [h1, h2]

/-- C8, witness: instance on `"Hi. Yo."` with limit 3. -/
theorem c8_witness :
    3 < ("Hi. Yo.".toList).length ∧
    rstrip (joinSpace (buildChunks 3 (splitSentences "Hi. Yo.".toList))) =
      rstrip (norm "Hi. Yo.".toList) :=
  ⟨by decide, (c8_round_trip "Hi. Yo.".toList 3 (by decide)).1⟩

/-- C9 (confirmed): for every non-blank text within the size limit, the
top-level `translate` run issues exactly one backend call, whether that
call succeeds or fails. -/
theorem c9_single_backend_call (b : Backend) (text : List Char) (l : Nat)
    (hb : blankInput text = false) (hl : text.length ≤ l) :
    (translate b text l).1.countP isCallEv = 1 := by
  rw [fast_eq b text l hb hl]
  rfl

/-- C9, witness: one call on the succeeding backend and on the failing
backend for the short text `"hi."`. -/
theorem c9_witness :
    blankInput "hi.".toList = false ∧ ("hi.".toList).length ≤ 10 ∧
    (translate allFailB "hi.".toList 10).1.countP isCallEv = 1 :=
  ⟨by decide, by decide, c9_single_backend_call allFailB "hi.".toList 10
    (by decide) (by decide)⟩

/-- C10 (confirmed): when the single fast-path backend call raises with
message `e` (itself free of the detection phrase), `translate` returns
`"Translation error: {e}"`, and that string does not contain the substring
`"Translation failed for chunk"` — a caller scanning for the marker phrase
will not detect a fast-path failure. -/
theorem c10_fast_path_error_shape (b : Backend) (text : List Char) (l : Nat)
    (e : List Char) (hb : blankInput text = false) (hl : text.length ≤ l)
    (he : b 0 text = .err e) (hm : containsSub markerPhrase e = false) :
    (translate b text l).2 = translationErrorMsg e ∧
    containsSub markerPhrase (translate b text l).2 = false := by
  have h2 : (translate b text l).2 = translationErrorMsg e := by
    rw [fast_eq b text l hb hl]
    simp [he]
  refine ⟨h2, ?_⟩
  rw [h2, translationError_no_marker]
  exact hm

/-- C10, witness: instance on the failing backend `boomB` and text
`"hi."`. -/
theorem c10_witness :
    blankInput "hi.".toList = false ∧
    containsSub markerPhrase "boom".toList = false ∧
    ((translate boomB "hi.".toList 10).2 = translationErrorMsg "boom".toList ∧
      containsSub markerPhrase (translate boomB "hi.".toList 10).2 = false) :=
  ⟨by decide, by decide,
    c10_fast_path_error_shape boomB "hi.".toList 10 "boom".toList
      (by decide) (by decide) rfl (by decide)⟩

end Translator
